import Mathlib

/-!
Shallow embedding of the curve module `src/src/lib/curves.ts` of the
JStechCurve repository, together with theorems checking the
specification's claims about it.

Numbers are modelled as real numbers (exact arithmetic).  The one place
where the JavaScript code can fail at runtime — `offsetCurve` reading
`offsetCurveMap[0].time` on an empty curve — is modelled with `Option`.
-/

namespace TechCurves

/-- A point of a curve: the `{time, value}` record of `curves.ts`. -/
@[ext]
structure CurvePoint where
  time : ℝ
  value : ℝ

/-- The clamp `Math.max(0, Math.min(1, x))` applied before a point is stored. -/
def clamp01 (x : ℝ) : ℝ := max 0 (min 1 x)

/-- Branch of `generateHypeCycle` for `t < 0` (pre-trigger baseline). -/
def hypeBaseline : ℝ := 0.05

/-- Branch of `generateHypeCycle` for `0 ≤ t ≤ 3` (rise to the peak). -/
noncomputable def hypeRise (t : ℝ) : ℝ :=
  0.1 + 0.9 * (1 - Real.exp (-t * 1.5)) * Real.exp (-((t - 2.5) ^ 2) / 2)

/-- Branch of `generateHypeCycle` for `3 < t ≤ 10` (decline into the trough). -/
noncomputable def hypeDecline (t : ℝ) : ℝ :=
  0.15 + (0.95 - 0.15) * Real.exp (-(t - 3) * 0.8)

/-- Branch of `generateHypeCycle` for `t > 10` (recovery to the plateau). -/
noncomputable def hypeRecovery (t : ℝ) : ℝ :=
  0.15 + (0.7 - 0.15) * (1 / (1 + Real.exp (-5 * (min 1 ((t - 10) / 8) - 0.5))))

/-- The piecewise hype-cycle value at local time `t`, mirroring the
`if/else if` chain in `generateHypeCycle`. -/
noncomputable def hypeValue (t : ℝ) : ℝ :=
  if t < 0 then hypeBaseline
  else if t ≤ 3 then hypeRise t
  else if t ≤ 10 then hypeDecline t
  else hypeRecovery t

/-- The time of the `i`-th sample in both generators:
`t = (i / points) * totalRange + startTime` with
`totalRange = timeRange + Math.abs(startTime)`. -/
noncomputable def gridTime (timeRange : ℝ) (points : ℕ) (startTime : ℝ) (i : ℕ) : ℝ :=
  ((i : ℝ) / (points : ℝ)) * (timeRange + |startTime|) + startTime

/-- Function `generateHypeCycle(timeRange, points, startTime)` from `curves.ts`:
`points + 1` samples at times `(i / points) * (timeRange + |startTime|) + startTime`,
values clamped to `[0, 1]`. -/
noncomputable def generateHypeCycle (timeRange : ℝ) (points : ℕ) (startTime : ℝ) :
    List CurvePoint :=
  (List.range (points + 1)).map (fun i =>
    ⟨gridTime timeRange points startTime i,
     clamp01 (hypeValue (gridTime timeRange points startTime i))⟩)

/-- The logistic value used by `generateSCurve`: growth rate `0.5`,
midpoint `timeRange * 0.4`. -/
noncomputable def sCurveValue (timeRange t : ℝ) : ℝ :=
  1 / (1 + Real.exp (-(0.5) * (t - timeRange * 0.4)))

/-- Function `generateSCurve(timeRange, points, startTime)` from `curves.ts`:
same time grid as the hype generator, logistic values, no clamping. -/
noncomputable def generateSCurve (timeRange : ℝ) (points : ℕ) (startTime : ℝ) :
    List CurvePoint :=
  (List.range (points + 1)).map (fun i =>
    ⟨gridTime timeRange points startTime i,
     sCurveValue timeRange (gridTime timeRange points startTime i)⟩)

/-- Function `blendCurves(curve1, curve2, blendRatio)` from `curves.ts`: iterate over
`min(len1, len2)` indices, time taken from `curve1`, values mixed linearly. -/
def blendCurves (curve1 curve2 : List CurvePoint) (blendRatio : ℝ) : List CurvePoint :=
  List.zipWith (fun p q => ⟨p.time, p.value * (1 - blendRatio) + q.value * blendRatio⟩)
    curve1 curve2

/-- Shifting one point by `offset`, as in the `offsetCurveMap` construction. -/
def shiftPoint (offset : ℝ) (p : CurvePoint) : CurvePoint := ⟨p.time + offset, p.value⟩

/-- The scan loop of `offsetCurve`: walk consecutive pairs in order and return
the first pair `(a, b)` with `a.time ≤ time` and `b.time ≥ time`; `none` when
no pair matches (the loop then leaves its defaults in place). -/
noncomputable def scanBracket (time : ℝ) : List CurvePoint → Option (CurvePoint × CurvePoint)
  | a :: b :: rest =>
      if a.time ≤ time ∧ b.time ≥ time then some (a, b) else scanBracket time (b :: rest)
  | _ => none

/-- The interpolation step of `offsetCurve`: return the value directly when the
bracketing pair has identical times, otherwise interpolate linearly and clamp. -/
noncomputable def interpolatePoint (beforePoint afterPoint : CurvePoint) (time : ℝ) :
    CurvePoint :=
  if beforePoint.time = afterPoint.time then ⟨time, beforePoint.value⟩
  else
    let t := (time - beforePoint.time) / (afterPoint.time - beforePoint.time)
    ⟨time, clamp01 (beforePoint.value + t * (afterPoint.value - beforePoint.value))⟩

/-- Function `offsetCurve(curve, offset, originalTimes)` from `curves.ts`.  The shifted
curve's first and last points are the loop defaults; on an empty curve the
JavaScript code dereferences `undefined` as soon as there is a reference time,
which is modelled as `none`. -/
noncomputable def offsetCurve (curve : List CurvePoint) (offset : ℝ)
    (originalTimes : List ℝ) : Option (List CurvePoint) :=
  match curve.map (shiftPoint offset) with
  | [] => if originalTimes.isEmpty then some [] else none
  | first :: rest =>
      some (originalTimes.map (fun time =>
        let d := (scanBracket time (first :: rest)).getD (first, rest.getLastD first)
        interpolatePoint d.1 d.2 time))

/-- Variant of `interpolatePoint` whose division is checked: it fails (returns
`none`) if it would ever divide by zero.  Used to state claim C8. -/
noncomputable def interpolatePointChecked (beforePoint afterPoint : CurvePoint) (time : ℝ) :
    Option CurvePoint :=
  if beforePoint.time = afterPoint.time then some ⟨time, beforePoint.value⟩
  else if afterPoint.time - beforePoint.time = 0 then none
  else some ⟨time, clamp01 (beforePoint.value +
    (time - beforePoint.time) / (afterPoint.time - beforePoint.time) *
      (afterPoint.value - beforePoint.value))⟩

/-- Threading of the checked interpolation through a list: fail as soon as one
element fails. -/
def traverseOption {α β : Type} (f : α → Option β) : List α → Option (List β)
  | [] => some []
  | a :: l => (f a).bind (fun b => (traverseOption f l).map (fun bs => b :: bs))

/-- Variant of `offsetCurve` with the checked interpolation step. -/
noncomputable def offsetCurveChecked (curve : List CurvePoint) (offset : ℝ)
    (originalTimes : List ℝ) : Option (List CurvePoint) :=
  match curve.map (shiftPoint offset) with
  | [] => if originalTimes.isEmpty then some [] else none
  | first :: rest =>
      traverseOption (fun time =>
        let d := (scanBracket time (first :: rest)).getD (first, rest.getLastD first)
        interpolatePointChecked d.1 d.2 time) originalTimes

/-- The record returned by `generateCombinedCurve`. -/
structure CombinedResult where
  hypeCurve : List CurvePoint
  sCurve : List CurvePoint
  combinedCurve : List CurvePoint

/-- Function `generateCombinedCurve(timeOffset, blendRatio, timeRange, points, startTime)`
from `curves.ts`: generate both base curves, resample the S-curve by
`timeOffset` onto the hype curve's time grid, then blend. -/
noncomputable def generateCombinedCurve (timeOffset blendRatio timeRange : ℝ)
    (points : ℕ) (startTime : ℝ) : Option CombinedResult :=
  let hypeCurve := generateHypeCycle timeRange points startTime
  let originalSCurve := generateSCurve timeRange points startTime
  let originalTimes := hypeCurve.map CurvePoint.time
  (offsetCurve originalSCurve timeOffset originalTimes).map (fun sCurve =>
    ⟨hypeCurve, sCurve, blendCurves hypeCurve sCurve blendRatio⟩)

/-! ### Basic facts about the clamp -/

theorem clamp01_nonneg (x : ℝ) : 0 ≤ clamp01 x := le_max_left 0 _

theorem clamp01_le_one (x : ℝ) : clamp01 x ≤ 1 :=
  max_le (by norm_num) (min_le_left 1 x)

theorem clamp01_of_mem (x : ℝ) (h0 : 0 ≤ x) (h1 : x ≤ 1) : clamp01 x = x := by
  unfold clamp01
  rw [min_eq_right h1, max_eq_right h0]

/-! ### Claim C1 -/

/-- C1: for positive `domainLength` and `pointCount ≥ 1`, `generateHypeCycle`
returns exactly `pointCount + 1` points, the `i`-th time equals
`domainStart + (i / pointCount) * (domainLength + |domainStart|)`, the times are
strictly increasing, and every value lies in `[0, 1]`. -/
theorem c1_generateHypeCycle_grid (dS dL : ℝ) (n : ℕ) (hdL : 0 < dL) (hn : 1 ≤ n) :
    (generateHypeCycle dL n dS).length = n + 1 ∧
    (generateHypeCycle dL n dS).map CurvePoint.time
      = (List.range (n + 1)).map (fun (i : ℕ) => dS + ((i : ℝ) / (n : ℝ)) * (dL + |dS|)) ∧
    (generateHypeCycle dL n dS).Pairwise (fun p q => p.time < q.time) ∧
    ∀ p ∈ generateHypeCycle dL n dS, 0 ≤ p.value ∧ p.value ≤ 1 := by
  have hT : 0 < dL + |dS| := by positivity
  have hnR : (0 : ℝ) < (n : ℝ) := by exact_mod_cast hn
  have hmono : ∀ i j : ℕ, i < j → gridTime dL n dS i < gridTime dL n dS j := by
    intro i j hij
    have hij' : (i : ℝ) < (j : ℝ) := by exact_mod_cast hij
    have h1 : (i : ℝ) / (n : ℝ) < (j : ℝ) / (n : ℝ) :=
      (div_lt_div_iff_of_pos_right hnR).mpr hij'
    exact add_lt_add_right (mul_lt_mul_of_pos_right h1 hT) dS
  refine ⟨?_, ?_, ?_, ?_⟩
  · simp [generateHypeCycle]
  · simp only [generateHypeCycle, List.map_map]
    refine List.map_congr_left ?_
    intro i _
    simp only [Function.comp_apply, gridTime]
    ring
  · unfold generateHypeCycle
    rw [List.pairwise_map]
    exact (List.pairwise_lt_range (n + 1)).imp (fun {i j} hij => hmono i j hij)
  · intro p hp
    simp only [generateHypeCycle, List.mem_map] at hp
    obtain ⟨i, _, rfl⟩ := hp
    exact ⟨clamp01_nonneg _, clamp01_le_one _⟩

/-- C1 witness: the theorem applied at `domainStart = -10`, `domainLength = 20`,
`pointCount = 4`. -/
theorem c1_witness :
    ((0 : ℝ) < 20 ∧ 1 ≤ (4 : ℕ)) ∧
      ((generateHypeCycle 20 4 (-10)).length = 4 + 1 ∧
       (generateHypeCycle 20 4 (-10)).map CurvePoint.time
         = (List.range (4 + 1)).map
             (fun (i : ℕ) => (-10 : ℝ) + ((i : ℝ) / ((4 : ℕ) : ℝ)) * (20 + |(-10 : ℝ)|)) ∧
       (generateHypeCycle 20 4 (-10)).Pairwise (fun p q => p.time < q.time) ∧
       ∀ p ∈ generateHypeCycle 20 4 (-10), 0 ≤ p.value ∧ p.value ≤ 1) :=
  ⟨⟨by norm_num, by norm_num⟩,
   c1_generateHypeCycle_grid (-10) 20 4 (by norm_num) (by norm_num)⟩

/-! ### Claim C9 -/

/-- C9: every point of `generateSCurve` carries the pure logistic value
`1 / (1 + exp (-0.5 * (t - 0.4 * domainLength)))` at its time `t` — the
midpoint is anchored to `domainLength` alone — and every value lies strictly
in `(0, 1)`, with no clamping applied. -/
theorem c9_generateSCurve_logistic (dS dL : ℝ) (n : ℕ) (hdL : 0 < dL) (hn : 1 ≤ n) :
    ∀ p ∈ generateSCurve dL n dS,
      p.value = 1 / (1 + Real.exp (-(0.5) * (p.time - 0.4 * dL))) ∧
      0 < p.value ∧ p.value < 1 := by
  intro p hp
  simp only [generateSCurve, List.mem_map] at hp
  obtain ⟨i, _, rfl⟩ := hp
  have he : 0 < Real.exp (-(0.5) * (gridTime dL n dS i - dL * 0.4)) := Real.exp_pos _
  refine ⟨?_, ?_, ?_⟩
  · simp only [sCurveValue]
    ring_nf
  · simp only [sCurveValue]
    positivity
  · simp only [sCurveValue]
    rw [div_lt_one (by linarith)]
    linarith

/-- C9 witness: the theorem applied at `domainStart = -10`, `domainLength = 20`,
`pointCount = 1`. -/
theorem c9_witness :
    ((0 : ℝ) < 20 ∧ 1 ≤ (1 : ℕ)) ∧
      ∀ p ∈ generateSCurve 20 1 (-10),
        p.value = 1 / (1 + Real.exp (-(0.5) * (p.time - 0.4 * 20))) ∧
        0 < p.value ∧ p.value < 1 :=
  ⟨⟨by norm_num, by norm_num⟩,
   c9_generateSCurve_logistic (-10) 20 1 (by norm_num) (by norm_num)⟩

/-! ### Claim C5 -/

/-- C5: on equal-length curves sharing the same times, `blendCurves` at ratio 0
returns the first curve, at ratio 1 the second, and at ratio `1/2` the
pointwise average (times taken from the first curve). -/
theorem c5_blendCurves_endpoints (A B : List CurvePoint)
    (htime : A.map CurvePoint.time = B.map CurvePoint.time) :
    blendCurves A B 0 = A ∧ blendCurves A B 1 = B ∧
    blendCurves A B (1 / 2)
      = List.zipWith (fun p q => ⟨p.time, (p.value + q.value) / 2⟩) A B := by
  induction A generalizing B with
  | nil =>
    cases B with
    | nil => exact ⟨rfl, rfl, rfl⟩
    | cons q B => simp at htime
  | cons p A ih =>
    cases B with
    | nil => simp at htime
    | cons q B =>
      simp only [List.map_cons, List.cons.injEq] at htime
      obtain ⟨hpq, hAB⟩ := htime
      obtain ⟨h0, h1, h2⟩ := ih B hAB
      simp only [blendCurves, List.zipWith_cons_cons] at h0 h1 h2 ⊢
      refine ⟨?_, ?_, ?_⟩
      · rw [h0]
        have hhd : (⟨p.time, p.value * (1 - 0) + q.value * 0⟩ : CurvePoint) = p := by
          ext
          · rfl
          · show p.value * (1 - 0) + q.value * 0 = p.value
            ring
        rw [hhd]
      · rw [h1]
        have hhd : (⟨p.time, p.value * (1 - 1) + q.value * 1⟩ : CurvePoint) = q := by
          ext
          · exact hpq
          · show p.value * (1 - 1) + q.value * 1 = q.value
            ring
        rw [hhd]
      · rw [h2]
        have hhd : (⟨p.time, p.value * (1 - 1 / 2) + q.value * (1 / 2)⟩ : CurvePoint)
            = ⟨p.time, (p.value + q.value) / 2⟩ := by
          ext
          · rfl
          · show p.value * (1 - 1 / 2) + q.value * (1 / 2) = (p.value + q.value) / 2
            ring
        rw [hhd]

/-- C5 witness: the theorem applied to the one-point curves `[(0, 1/4)]` and
`[(0, 3/4)]`. -/
theorem c5_witness :
    (([⟨0, 1 / 4⟩] : List CurvePoint).map CurvePoint.time
        = ([⟨0, 3 / 4⟩] : List CurvePoint).map CurvePoint.time) ∧
      (blendCurves [⟨0, 1 / 4⟩] [⟨0, 3 / 4⟩] 0 = [⟨0, 1 / 4⟩] ∧
       blendCurves [⟨0, 1 / 4⟩] [⟨0, 3 / 4⟩] 1 = [⟨0, 3 / 4⟩] ∧
       blendCurves [⟨0, 1 / 4⟩] [⟨0, 3 / 4⟩] (1 / 2)
         = List.zipWith (fun (p q : CurvePoint) => ⟨p.time, (p.value + q.value) / 2⟩)
             [⟨0, 1 / 4⟩] [⟨0, 3 / 4⟩]) :=
  ⟨by simp, c5_blendCurves_endpoints [⟨0, 1 / 4⟩] [⟨0, 3 / 4⟩] (by simp)⟩

/-! ### Claim C6 -/

/-- C6: with `pointCount = 0` the generator loop still runs once and returns
exactly one point.  (The time and value of that point are where the claim
fails: JavaScript evaluates `i / points` as `0 / 0 = NaN`, so the returned
point is `(NaN, NaN)` rather than a point at `domainStart` with a finite
value.  The real-number embedding, in which division by zero is zero, cannot
exhibit that behaviour; this theorem records the part of the claim that the
code does satisfy.) -/
theorem c6_pointCount_zero_single_point :
    (generateHypeCycle 20 0 (-10)).length = 1 ∧
    (generateSCurve 20 0 (-10)).length = 1 := by
  constructor <;> simp [generateHypeCycle, generateSCurve]

/-! ### Claim C8 -/

lemma traverseOption_eq_map {α β : Type} (f : α → Option β) (g : α → β)
    (h : ∀ a, f a = some (g a)) : ∀ l : List α, traverseOption f l = some (l.map g) := by
  intro l
  induction l with
  | nil => rfl
  | cons a l ih => simp [traverseOption, h a, ih]

lemma interpolatePointChecked_eq (b a : CurvePoint) (t : ℝ) :
    interpolatePointChecked b a t = some (interpolatePoint b a t) := by
  unfold interpolatePointChecked interpolatePoint
  by_cases h : b.time = a.time
  · simp [h]
  · have h2 : a.time - b.time ≠ 0 := sub_ne_zero.mpr (Ne.symm h)
    simp [h, h2]

/-- C8: `offsetCurve` never divides by zero — the variant whose interpolation
step fails on a zero divisor agrees with the actual function on every input,
because the equal-times guard is checked first and otherwise the divisor
`afterPoint.time - beforePoint.time` is nonzero. -/
theorem c8_offsetCurve_division_guarded (curve : List CurvePoint) (offset : ℝ)
    (originalTimes : List ℝ) :
    offsetCurveChecked curve offset originalTimes
      = offsetCurve curve offset originalTimes := by
  unfold offsetCurveChecked offsetCurve
  cases hm : curve.map (shiftPoint offset) with
  | nil => rfl
  | cons first rest =>
    exact traverseOption_eq_map _ _ (fun time => interpolatePointChecked_eq _ _ _) originalTimes

/-! ### Facts about the bracket scan -/

lemma scanBracket_eq_none_of_forall_lt (τ : ℝ) :
    ∀ (m : List CurvePoint), (∀ p ∈ m, τ < p.time) → scanBracket τ m = none := by
  intro m
  induction m with
  | nil => intro _; rfl
  | cons a l ih =>
    intro h
    cases l with
    | nil => rfl
    | cons b rest =>
      have ha : τ < a.time := h a (by simp)
      rw [scanBracket, if_neg]
      · exact ih (fun p hp => h p (List.mem_cons_of_mem a hp))
      · rintro ⟨h1, _⟩
        exact absurd h1 (not_le.mpr ha)

lemma scanBracket_eq_none_of_forall_gt (τ : ℝ) :
    ∀ (m : List CurvePoint), (∀ p ∈ m, p.time < τ) → scanBracket τ m = none := by
  intro m
  induction m with
  | nil => intro _; rfl
  | cons a l ih =>
    intro h
    cases l with
    | nil => rfl
    | cons b rest =>
      have hb : b.time < τ := h b (by simp)
      rw [scanBracket, if_neg]
      · exact ih (fun p hp => h p (List.mem_cons_of_mem a hp))
      · rintro ⟨_, h2⟩
        exact absurd h2 (not_le.mpr hb)

lemma time_le_getLastD :
    ∀ (l : List CurvePoint) (a : CurvePoint),
      (a :: l).Pairwise (fun p q => p.time < q.time) →
      ∀ p ∈ a :: l, p.time ≤ (l.getLastD a).time := by
  intro l
  induction l with
  | nil =>
    intro a _ p hp
    have : p = a := by simpa using hp
    subst this
    simp [List.getLastD]
  | cons b rest ih =>
    intro a h p hp
    rw [List.getLastD_cons]
    rcases List.mem_cons.mp hp with rfl | hp'
    · have hab : p.time < b.time := (List.pairwise_cons.mp h).1 b (by simp)
      have hb : b.time ≤ (rest.getLastD b).time :=
        ih b (List.pairwise_cons.mp h).2 b (by simp)
      linarith
    · exact ih b (List.pairwise_cons.mp h).2 p hp'

/-- On a strictly sorted curve of length at least 2, the scan at the time of a
member point returns either the pair ending at that point or the pair starting
at it. -/
lemma scanBracket_self :
    ∀ (m : List CurvePoint), m.Pairwise (fun p q => p.time < q.time) →
      ∀ p ∈ m, 2 ≤ m.length →
        (∃ q, scanBracket p.time m = some (q, p) ∧ q.time < p.time) ∨
        (∃ q, scanBracket p.time m = some (p, q) ∧ p.time < q.time) := by
  intro m
  induction m with
  | nil =>
    intro _ p hp
    simp at hp
  | cons a l ih =>
    intro hsort p hp hlen
    cases l with
    | nil => simp at hlen
    | cons b rest =>
      have hab : a.time < b.time := (List.pairwise_cons.mp hsort).1 b (by simp)
      rcases List.mem_cons.mp hp with rfl | hp'
      · right
        refine ⟨b, ?_, hab⟩
        rw [scanBracket, if_pos ⟨le_refl _, le_of_lt hab⟩]
      · rcases List.mem_cons.mp hp' with rfl | hp''
        · left
          refine ⟨a, ?_, hab⟩
          rw [scanBracket, if_pos ⟨le_of_lt hab, le_refl _⟩]
        · have hbp : b.time < p.time :=
            (List.pairwise_cons.mp (List.pairwise_cons.mp hsort).2).1 p hp''
          have hstep : scanBracket p.time (a :: b :: rest) = scanBracket p.time (b :: rest) := by
            rw [scanBracket, if_neg]
            rintro ⟨_, h2⟩
            exact absurd h2 (not_le.mpr hbp)
          rw [hstep]
          refine ih (List.pairwise_cons.mp hsort).2 p hp' ?_
          have : 0 < rest.length := List.length_pos.mpr (List.ne_nil_of_mem hp'')
          simp only [List.length_cons]
          omega

/-! ### Evaluating the interpolation step -/

lemma interpolatePoint_at_left (bp ap : CurvePoint) (h : bp.time < ap.time)
    (h0 : 0 ≤ bp.value) (h1 : bp.value ≤ 1) :
    interpolatePoint bp ap bp.time = bp := by
  unfold interpolatePoint
  rw [if_neg (ne_of_lt h)]
  show (⟨bp.time, clamp01 (bp.value + (bp.time - bp.time) / (ap.time - bp.time)
      * (ap.value - bp.value))⟩ : CurvePoint) = bp
  rw [sub_self, zero_div, zero_mul, add_zero, clamp01_of_mem _ h0 h1]

lemma interpolatePoint_at_right (bp ap : CurvePoint) (h : bp.time < ap.time)
    (h0 : 0 ≤ ap.value) (h1 : ap.value ≤ 1) :
    interpolatePoint bp ap ap.time = ap := by
  unfold interpolatePoint
  rw [if_neg (ne_of_lt h)]
  show (⟨ap.time, clamp01 (bp.value + (ap.time - bp.time) / (ap.time - bp.time)
      * (ap.value - bp.value))⟩ : CurvePoint) = ap
  rw [div_self (sub_ne_zero.mpr (ne_of_gt h)), one_mul]
  have : bp.value + (ap.value - bp.value) = ap.value := by ring
  rw [this, clamp01_of_mem _ h0 h1]

/-- Evaluating the resampler's per-time body at the time of a member of a
strictly sorted curve returns that member unchanged. -/
lemma eval_at_member (a : CurvePoint) (rest : List CurvePoint)
    (hsort : (a :: rest).Pairwise (fun p q => p.time < q.time))
    (p : CurvePoint) (hp : p ∈ a :: rest) (h0 : 0 ≤ p.value) (h1 : p.value ≤ 1) :
    interpolatePoint ((scanBracket p.time (a :: rest)).getD (a, rest.getLastD a)).1
      ((scanBracket p.time (a :: rest)).getD (a, rest.getLastD a)).2 p.time = p := by
  cases rest with
  | nil =>
    have hp' : p = a := by simpa using hp
    subst hp'
    show interpolatePoint p p p.time = p
    unfold interpolatePoint
    rw [if_pos rfl]
  | cons b rest' =>
    have h2 : 2 ≤ (a :: b :: rest').length := by
      simp only [List.length_cons]
      omega
    rcases scanBracket_self (a :: b :: rest') hsort p hp h2 with
      ⟨q, hscan, hlt⟩ | ⟨q, hscan, hlt⟩
    · rw [hscan]
      exact interpolatePoint_at_right q p hlt h0 h1
    · rw [hscan]
      exact interpolatePoint_at_left p q hlt h0 h1

/-! ### Claim C4 -/

/-- C4: on a curve with strictly increasing times and values in `[0, 1]`,
resampling with zero offset onto the curve's own time grid is the identity. -/
theorem c4_offsetCurve_zero_identity (curve : List CurvePoint)
    (hsort : curve.Pairwise (fun p q => p.time < q.time))
    (hval : ∀ p ∈ curve, 0 ≤ p.value ∧ p.value ≤ 1) :
    offsetCurve curve 0 (curve.map CurvePoint.time) = some curve := by
  have hshift : curve.map (shiftPoint 0) = curve := by
    conv_rhs => rw [← List.map_id curve]
    refine List.map_congr_left ?_
    intro p _
    ext
    · show p.time + 0 = p.time
      rw [add_zero]
    · rfl
  unfold offsetCurve
  rw [hshift]
  cases curve with
  | nil => simp
  | cons a rest =>
    simp only
    congr 1
    rw [List.map_map]
    conv_rhs => rw [← List.map_id (a :: rest)]
    refine List.map_congr_left ?_
    intro p hp
    simp only [Function.comp_apply, id_eq]
    exact eval_at_member a rest hsort p hp (hval p hp).1 (hval p hp).2

/-- C4 witness: the theorem applied to the curve `[(0, 1/2), (1, 1)]`. -/
theorem c4_witness :
    (([⟨0, 1 / 2⟩, ⟨1, 1⟩] : List CurvePoint).Pairwise (fun p q => p.time < q.time)) ∧
    (∀ p ∈ ([⟨0, 1 / 2⟩, ⟨1, 1⟩] : List CurvePoint), 0 ≤ p.value ∧ p.value ≤ 1) ∧
    offsetCurve [⟨0, 1 / 2⟩, ⟨1, 1⟩] 0
        (([⟨0, 1 / 2⟩, ⟨1, 1⟩] : List CurvePoint).map CurvePoint.time)
      = some [⟨0, 1 / 2⟩, ⟨1, 1⟩] := by
  have h1 : (([⟨0, 1 / 2⟩, ⟨1, 1⟩] : List CurvePoint).Pairwise
      (fun p q => p.time < q.time)) := by
    refine List.pairwise_cons.mpr ⟨?_, ?_⟩
    · intro b hb
      have hb' : b = (⟨1, 1⟩ : CurvePoint) := by simpa using hb
      subst hb'
      show (0 : ℝ) < 1
      norm_num
    · simp
  have h2 : ∀ p ∈ ([⟨0, 1 / 2⟩, ⟨1, 1⟩] : List CurvePoint),
      0 ≤ p.value ∧ p.value ≤ 1 := by
    intro p hp
    rcases List.mem_cons.mp hp with rfl | hp'
    · constructor <;> norm_num
    · have : p = (⟨1, 1⟩ : CurvePoint) := by simpa using hp'
      subst this
      constructor <;> norm_num
  exact ⟨h1, h2, c4_offsetCurve_zero_identity _ h1 h2⟩

/-! ### Claim C2 -/

/-- C2 (amended): when the reference time `τ` falls strictly before the first
shifted point or strictly after the last one, the scan finds no bracketing
pair and `offsetCurve` keeps its loop defaults — the first and the last point
of the whole shifted curve — so it returns the linear interpolation along the
chord between those two points, clamped to `[0, 1]` (not the nearest boundary
point's value, and not an extrapolation of the nearest edge segment). -/
theorem c2_out_of_range_uses_full_chord (curve : List CurvePoint) (offset τ : ℝ)
    (b : CurvePoint) (brest : List CurvePoint)
    (hm : curve.map (shiftPoint offset) = b :: brest)
    (hsort : (b :: brest).Pairwise (fun p q => p.time < q.time))
    (hout : τ < b.time ∨ (brest.getLastD b).time < τ) :
    offsetCurve curve offset [τ]
      = some [interpolatePoint b (brest.getLastD b) τ] := by
  have hscan : scanBracket τ (b :: brest) = none := by
    rcases hout with h | h
    · apply scanBracket_eq_none_of_forall_lt
      intro p hp
      rcases List.mem_cons.mp hp with rfl | hp'
      · exact h
      · have : b.time < p.time := (List.pairwise_cons.mp hsort).1 p hp'
        linarith
    · apply scanBracket_eq_none_of_forall_gt
      intro p hp
      have := time_le_getLastD brest b hsort p hp
      linarith
  unfold offsetCurve
  rw [hm]
  simp [hscan]

/-- C2 witness: the theorem applied to the curve `[(0, 1), (1, 1/2), (2, 3/5)]`,
offset `0` and reference time `3` (past the last point). -/
theorem c2_witness :
    (([⟨0, 1⟩, ⟨1, 1 / 2⟩, ⟨2, 3 / 5⟩] : List CurvePoint).map (shiftPoint 0)
        = [⟨0, 1⟩, ⟨1, 1 / 2⟩, ⟨2, 3 / 5⟩]) ∧
    (([⟨0, 1⟩, ⟨1, 1 / 2⟩, ⟨2, 3 / 5⟩] : List CurvePoint).Pairwise
        (fun p q => p.time < q.time)) ∧
    ((3 : ℝ) < (⟨0, 1⟩ : CurvePoint).time ∨
      (([⟨1, 1 / 2⟩, ⟨2, 3 / 5⟩] : List CurvePoint).getLastD ⟨0, 1⟩).time < 3) ∧
    offsetCurve [⟨0, 1⟩, ⟨1, 1 / 2⟩, ⟨2, 3 / 5⟩] 0 [3]
      = some [interpolatePoint ⟨0, 1⟩
          (([⟨1, 1 / 2⟩, ⟨2, 3 / 5⟩] : List CurvePoint).getLastD ⟨0, 1⟩) 3] := by
  have hm : (([⟨0, 1⟩, ⟨1, 1 / 2⟩, ⟨2, 3 / 5⟩] : List CurvePoint).map (shiftPoint 0)
      = [⟨0, 1⟩, ⟨1, 1 / 2⟩, ⟨2, 3 / 5⟩]) := by
    simp [shiftPoint]
  have hsort : (([⟨0, 1⟩, ⟨1, 1 / 2⟩, ⟨2, 3 / 5⟩] : List CurvePoint).Pairwise
      (fun p q => p.time < q.time)) := by
    refine List.pairwise_cons.mpr ⟨?_, List.pairwise_cons.mpr ⟨?_, ?_⟩⟩
    · intro p hp
      rcases List.mem_cons.mp hp with rfl | hp'
      · show (0 : ℝ) < 1
        norm_num
      · have : p = (⟨2, 3 / 5⟩ : CurvePoint) := by simpa using hp'
        subst this
        show (0 : ℝ) < 2
        norm_num
    · intro p hp
      have : p = (⟨2, 3 / 5⟩ : CurvePoint) := by simpa using hp
      subst this
      show (1 : ℝ) < 2
      norm_num
    · simp
  have hout : ((3 : ℝ) < (⟨0, 1⟩ : CurvePoint).time ∨
      (([⟨1, 1 / 2⟩, ⟨2, 3 / 5⟩] : List CurvePoint).getLastD ⟨0, 1⟩).time < 3) := by
    right
    show (2 : ℝ) < 3
    norm_num
  exact ⟨hm, hsort, hout,
    c2_out_of_range_uses_full_chord _ 0 3 _ _ hm hsort hout⟩

/-- C2 counterexample: for the curve `[(0, 1), (1, 1/2), (2, 3/5)]` with zero
offset and reference time `3`, the code returns the value `2/5` — obtained by
extending the chord from the first point `(0, 1)` to the last point
`(2, 3/5)` — which is neither the nearest boundary point's value `3/5` nor
the clamped extrapolation `7/10` along the nearest edge segment from
`(1, 1/2)` to `(2, 3/5)`. -/
theorem c2_counterexample :
    offsetCurve [⟨0, 1⟩, ⟨1, 1 / 2⟩, ⟨2, 3 / 5⟩] 0 [3] = some [⟨3, 2 / 5⟩] ∧
    (2 / 5 : ℝ) ≠ 3 / 5 ∧ (2 / 5 : ℝ) ≠ 7 / 10 := by
  refine ⟨?_, by norm_num, by norm_num⟩
  have hscan : scanBracket 3 ([⟨0, 1⟩, ⟨1, 1 / 2⟩, ⟨2, 3 / 5⟩] : List CurvePoint) = none := by
    apply scanBracket_eq_none_of_forall_gt
    intro p hp
    rcases List.mem_cons.mp hp with rfl | hp'
    · show (0 : ℝ) < 3
      norm_num
    rcases List.mem_cons.mp hp' with rfl | hp''
    · show (1 : ℝ) < 3
      norm_num
    · have : p = (⟨2, 3 / 5⟩ : CurvePoint) := by simpa using hp''
      subst this
      show (2 : ℝ) < 3
      norm_num
  unfold offsetCurve
  norm_num [shiftPoint, hscan]
  show interpolatePoint ⟨0, 1⟩ ⟨2, 3 / 5⟩ 3 = (⟨3, 2 / 5⟩ : CurvePoint)
  unfold interpolatePoint
  rw [if_neg (by norm_num)]
  show (⟨3, clamp01 (1 + (3 - 0) / (2 - 0) * (3 / 5 - 1))⟩ : CurvePoint) = ⟨3, 2 / 5⟩
  norm_num [clamp01, min_def, max_def]

/-! ### Claim C7 -/

lemma hypeRise_zero : hypeRise 0 = 0.1 := by
  unfold hypeRise
  norm_num [Real.exp_zero]

lemma hypeDecline_three : hypeDecline 3 = 0.95 := by
  unfold hypeDecline
  norm_num [Real.exp_zero]

lemma hypeRise_three_lt : hypeRise 3 < 0.95 := by
  have harg1 : (-(3 : ℝ) * 1.5) = -4.5 := by norm_num
  have harg2 : (-(((3 : ℝ) - 2.5) ^ 2) / 2) = -0.125 := by norm_num
  have e1 : Real.exp (-4.5 : ℝ) ≤ 1 := by
    have h := Real.exp_le_exp.mpr (by norm_num : (-4.5 : ℝ) ≤ 0)
    rwa [Real.exp_zero] at h
  have e1' : 0 < Real.exp (-4.5 : ℝ) := Real.exp_pos _
  have e2 : Real.exp (-0.125 : ℝ) ≤ 8 / 9 := by
    have h9 : (9 : ℝ) / 8 ≤ Real.exp 0.125 := by
      have h := Real.add_one_le_exp (0.125 : ℝ)
      linarith
    rw [Real.exp_neg]
    calc (Real.exp 0.125)⁻¹ = 1 / Real.exp 0.125 := (one_div _).symm
      _ ≤ 1 / ((9 : ℝ) / 8) := one_div_le_one_div_of_le (by norm_num) h9
      _ = 8 / 9 := by norm_num
  have e3 : 0 < Real.exp (-0.125 : ℝ) := Real.exp_pos _
  unfold hypeRise
  rw [harg1, harg2]
  have hprod : (1 - Real.exp (-4.5 : ℝ)) * Real.exp (-0.125 : ℝ) ≤ 1 * (8 / 9) :=
    mul_le_mul (by linarith) e2 (le_of_lt e3) (by norm_num)
  nlinarith [hprod]

lemma hypeDecline_ten_lt : hypeDecline 10 < hypeRecovery 10 := by
  have harg1 : (-((10 : ℝ) - 3) * 0.8) = -5.6 := by norm_num
  have hmin : min (1 : ℝ) (((10 : ℝ) - 10) / 8) = ((10 : ℝ) - 10) / 8 := by
    apply min_eq_right
    norm_num
  have harg2 : (-5 * (min (1 : ℝ) (((10 : ℝ) - 10) / 8) - 0.5)) = 2.5 := by
    rw [hmin]
    norm_num
  have h7 : (1.7 : ℝ) ≤ Real.exp 0.7 := by
    have h := Real.add_one_le_exp (0.7 : ℝ)
    linarith
  have h56 : (69 : ℝ) ≤ Real.exp 5.6 := by
    have h8 : Real.exp (((8 : ℕ) : ℝ) * (0.7 : ℝ)) = Real.exp 0.7 ^ 8 :=
      Real.exp_nat_mul _ 8
    have h8' : ((8 : ℕ) : ℝ) * (0.7 : ℝ) = 5.6 := by norm_num
    rw [h8'] at h8
    calc (69 : ℝ) ≤ 1.7 ^ 8 := by norm_num
      _ ≤ Real.exp 0.7 ^ 8 := pow_le_pow_left₀ (by norm_num) h7 8
      _ = Real.exp 5.6 := h8.symm
  have h25 : Real.exp 2.5 ≤ 21 := by
    have h3 : Real.exp (2.5 : ℝ) ≤ Real.exp 3 := Real.exp_le_exp.mpr (by norm_num)
    have h4 : Real.exp (((3 : ℕ) : ℝ) * (1 : ℝ)) = Real.exp 1 ^ 3 :=
      Real.exp_nat_mul _ 3
    have h4' : ((3 : ℕ) : ℝ) * (1 : ℝ) = 3 := by norm_num
    rw [h4'] at h4
    have h5 : Real.exp 1 ^ 3 ≤ (2.7182818286 : ℝ) ^ 3 :=
      pow_le_pow_left₀ (le_of_lt (Real.exp_pos 1)) (le_of_lt Real.exp_one_lt_d9) 3
    have h6 : (2.7182818286 : ℝ) ^ 3 ≤ 21 := by norm_num
    calc Real.exp 2.5 ≤ Real.exp 3 := h3
      _ = Real.exp 1 ^ 3 := h4
      _ ≤ (2.7182818286 : ℝ) ^ 3 := h5
      _ ≤ 21 := h6
  unfold hypeDecline hypeRecovery
  rw [harg1, harg2]
  have hepos : (0 : ℝ) < Real.exp 2.5 := Real.exp_pos _
  have hdenpos : (0 : ℝ) < 1 + Real.exp 2.5 := by linarith
  have hlhs : Real.exp (-5.6 : ℝ) ≤ 1 / 69 := by
    rw [Real.exp_neg]
    calc (Real.exp 5.6)⁻¹ = 1 / Real.exp 5.6 := (one_div _).symm
      _ ≤ 1 / 69 := one_div_le_one_div_of_le (by norm_num) h56
  have hrhs : (1 : ℝ) / 22 ≤ 1 / (1 + Real.exp 2.5) :=
    one_div_le_one_div_of_le hdenpos (by linarith)
  have hexpos : (0 : ℝ) < Real.exp (-5.6 : ℝ) := Real.exp_pos _
  linarith

/-- C7 counterexample: at the branch boundary `t = 0` the two adjacent branch
formulas of the hype model disagree — the baseline branch gives `0.05` while
the rise branch evaluated at `0` gives `0.1` — so the piecewise model is not
discontinuity-free. -/
theorem c7_counterexample : hypeBaseline ≠ hypeRise 0 := by
  rw [hypeRise_zero]
  unfold hypeBaseline
  norm_num

/-- C7 (amended): the piecewise hype model is discontinuous at all three
branch boundaries: the adjacent branch formulas disagree at `t = 0`
(`0.05` vs `0.1`), at `t = 3` (the rise value is below `0.95`), and at
`t = 10` (the decline value is below the recovery value). -/
theorem c7_branch_boundaries_disagree :
    hypeBaseline ≠ hypeRise 0 ∧ hypeRise 3 ≠ hypeDecline 3 ∧
    hypeDecline 10 ≠ hypeRecovery 10 := by
  refine ⟨?_, ?_, ne_of_lt hypeDecline_ten_lt⟩
  · rw [hypeRise_zero]
    unfold hypeBaseline
    norm_num
  · rw [hypeDecline_three]
    exact ne_of_lt hypeRise_three_lt

/-! ### Claim C10 -/

lemma interpolatePoint_time (bp ap : CurvePoint) (τ : ℝ) :
    (interpolatePoint bp ap τ).time = τ := by
  unfold interpolatePoint
  split <;> rfl

/-- On a nonempty curve, `offsetCurve` always succeeds and returns one point
per reference time, carrying exactly that time. -/
lemma offsetCurve_eq_some (curve : List CurvePoint) (offset : ℝ) (ts : List ℝ)
    (a : CurvePoint) (rest : List CurvePoint)
    (hm : curve.map (shiftPoint offset) = a :: rest) :
    ∃ L, offsetCurve curve offset ts = some L ∧ L.map CurvePoint.time = ts := by
  unfold offsetCurve
  rw [hm]
  refine ⟨_, rfl, ?_⟩
  rw [List.map_map]
  conv_rhs => rw [← List.map_id ts]
  refine List.map_congr_left ?_
  intro τ _
  simp only [Function.comp_apply, id_eq]
  exact interpolatePoint_time _ _ _

lemma blendCurves_length (A B : List CurvePoint) (r : ℝ) :
    (blendCurves A B r).length = min A.length B.length :=
  List.length_zipWith _ _ _

lemma blendCurves_map_time :
    ∀ (A B : List CurvePoint) (r : ℝ), A.length ≤ B.length →
      (blendCurves A B r).map CurvePoint.time = A.map CurvePoint.time := by
  intro A
  induction A with
  | nil => intro B r _; rfl
  | cons p A ih =>
    intro B r hlen
    cases B with
    | nil => simp at hlen
    | cons q B =>
      have htail := ih B r (by simpa using hlen)
      unfold blendCurves at htail ⊢
      rw [List.zipWith_cons_cons, List.map_cons, List.map_cons, htail]

/-- C10: all three curves returned by `generateCombinedCurve` have length
`pointCount + 1`, and the resampled S-curve and the combined curve carry
exactly the hype curve's time at every index, for every offset. -/
theorem c10_generateCombinedCurve_alignment (off ratio dS dL : ℝ) (n : ℕ)
    (hdL : 0 < dL) (hn : 1 ≤ n) :
    ∃ r, generateCombinedCurve off ratio dL n dS = some r ∧
      r.hypeCurve.length = n + 1 ∧ r.sCurve.length = n + 1 ∧
      r.combinedCurve.length = n + 1 ∧
      r.sCurve.map CurvePoint.time = r.hypeCurve.map CurvePoint.time ∧
      r.combinedCurve.map CurvePoint.time = r.hypeCurve.map CurvePoint.time := by
  obtain ⟨a, rest, hm⟩ : ∃ a rest,
      (generateSCurve dL n dS).map (shiftPoint off) = a :: rest := by
    cases hmap : (generateSCurve dL n dS).map (shiftPoint off) with
    | nil =>
      exfalso
      have h := congrArg List.length hmap
      simp [generateSCurve] at h
    | cons a rest => exact ⟨a, rest, rfl⟩
  obtain ⟨L, hL, hLt⟩ := offsetCurve_eq_some _ off
    ((generateHypeCycle dL n dS).map CurvePoint.time) a rest hm
  have hhlen : (generateHypeCycle dL n dS).length = n + 1 := by
    simp [generateHypeCycle]
  have hLlen : L.length = n + 1 := by
    have h := congrArg List.length hLt
    rwa [List.length_map, List.length_map, hhlen] at h
  have hclen : (blendCurves (generateHypeCycle dL n dS) L ratio).length = n + 1 := by
    rw [blendCurves_length, hhlen, hLlen, min_self]
  have hctime := blendCurves_map_time (generateHypeCycle dL n dS) L ratio
    (le_of_eq (hhlen.trans hLlen.symm))
  refine ⟨⟨generateHypeCycle dL n dS, L, blendCurves (generateHypeCycle dL n dS) L ratio⟩,
    ?_, hhlen, hLlen, hclen, hLt, hctime⟩
  simp only [generateCombinedCurve]
  rw [hL]
  rfl

/-- C10 witness: the theorem applied at offset `0`, ratio `1/2`,
`domainLength = 20`, `pointCount = 4`, `domainStart = -10`. -/
theorem c10_witness :
    ((0 : ℝ) < 20 ∧ 1 ≤ (4 : ℕ)) ∧
      (∃ r, generateCombinedCurve 0 (1 / 2) 20 4 (-10) = some r ∧
        r.hypeCurve.length = 4 + 1 ∧ r.sCurve.length = 4 + 1 ∧
        r.combinedCurve.length = 4 + 1 ∧
        r.sCurve.map CurvePoint.time = r.hypeCurve.map CurvePoint.time ∧
        r.combinedCurve.map CurvePoint.time = r.hypeCurve.map CurvePoint.time) :=
  ⟨⟨by norm_num, by norm_num⟩,
   c10_generateCombinedCurve_alignment 0 (1 / 2) (-10) 20 4 (by norm_num) (by norm_num)⟩

/-! ### Claim C3 -/

lemma hypeTimes_concrete :
    (generateHypeCycle 20 4 (-10)).map CurvePoint.time
      = [-10, -2.5, 5, 12.5, 20] := by
  have hr : List.range (4 + 1) = [0, 1, 2, 3, 4] := rfl
  unfold generateHypeCycle
  rw [hr]
  simp only [List.map_cons, List.map_nil]
  unfold gridTime
  norm_num

lemma hypeValues_first_two :
    ((generateHypeCycle 20 4 (-10)).map CurvePoint.value).take 2 = [0.05, 0.05] := by
  have hr : List.range (4 + 1) = [0, 1, 2, 3, 4] := rfl
  have ht0 : gridTime 20 4 (-10) 0 = -10 := by
    unfold gridTime
    norm_num
  have ht1 : gridTime 20 4 (-10) 1 = -2.5 := by
    unfold gridTime
    norm_num
  have hv0 : hypeValue (-10) = 0.05 := by
    unfold hypeValue
    rw [if_pos (by norm_num : (-10 : ℝ) < 0)]
    rfl
  have hv1 : hypeValue (-2.5) = 0.05 := by
    unfold hypeValue
    rw [if_pos (by norm_num : (-2.5 : ℝ) < 0)]
    rfl
  unfold generateHypeCycle
  rw [hr]
  simp only [List.map_cons, List.map_nil, List.take_succ_cons, List.take_zero]
  rw [ht0, ht1, hv0, hv1]
  norm_num [clamp01, min_def, max_def]

lemma blendCurves_half (A : List CurvePoint) :
    ∀ B, blendCurves A B (1 / 2)
      = List.zipWith (fun p q => ⟨p.time, (p.value + q.value) / 2⟩) A B := by
  induction A with
  | nil => intro B; cases B <;> rfl
  | cons p A ih =>
    intro B
    cases B with
    | nil => rfl
    | cons q B =>
      unfold blendCurves at ih ⊢
      rw [List.zipWith_cons_cons, List.zipWith_cons_cons, ih B]
      congr 1
      ext
      · rfl
      · show p.value * (1 - 1 / 2) + q.value * (1 / 2) = (p.value + q.value) / 2
        ring

/-- C3 counterexample: the concrete call `combine(0, 1/2, 20, 4, -10)` has
time grid `[-10, -2.5, 5, 12.5, 20]` — the total range is
`timeRange + |startTime| = 30`, so the grid is not the claimed
`[-10, -5, 0, 5, 10]`. -/
theorem c3_counterexample :
    (generateCombinedCurve 0 (1 / 2) 20 4 (-10)).map
        (fun r => r.hypeCurve.map CurvePoint.time)
      = some [-10, -2.5, 5, 12.5, 20] ∧
    some ([-10, -2.5, 5, 12.5, 20] : List ℝ) ≠ some [-10, -5, 0, 5, 10] := by
  constructor
  · obtain ⟨a, rest, hm⟩ : ∃ a rest,
        (generateSCurve 20 4 (-10)).map (shiftPoint 0) = a :: rest := by
      cases hmap : (generateSCurve 20 4 (-10)).map (shiftPoint 0) with
      | nil =>
        exfalso
        have h := congrArg List.length hmap
        simp [generateSCurve] at h
      | cons a rest => exact ⟨a, rest, rfl⟩
    obtain ⟨L, hL, _⟩ := offsetCurve_eq_some _ 0
      ((generateHypeCycle 20 4 (-10)).map CurvePoint.time) a rest hm
    simp only [generateCombinedCurve]
    rw [hL]
    show some ((generateHypeCycle 20 4 (-10)).map CurvePoint.time)
      = some [-10, -2.5, 5, 12.5, 20]
    rw [hypeTimes_concrete]
  · intro h
    have h' := Option.some.inj h
    norm_num at h'

/-- C3 (amended): `combine(0, 1/2, 20, 4, -10)` spans `[-10, 20]`: its time
grid is exactly `[-10, -2.5, 5, 12.5, 20]`, the hype curve equals the baseline
`0.05` at its two negative grid times (`-10` and `-2.5`), and the combined
curve is the pointwise average of the hype curve and the resampled adoption
curve at each grid point. -/
theorem c3_combine_concrete :
    ∃ r, generateCombinedCurve 0 (1 / 2) 20 4 (-10) = some r ∧
      r.hypeCurve.map CurvePoint.time = [-10, -2.5, 5, 12.5, 20] ∧
      (r.hypeCurve.map CurvePoint.value).take 2 = [0.05, 0.05] ∧
      r.combinedCurve
        = List.zipWith (fun p q => ⟨p.time, (p.value + q.value) / 2⟩)
            r.hypeCurve r.sCurve := by
  obtain ⟨a, rest, hm⟩ : ∃ a rest,
      (generateSCurve 20 4 (-10)).map (shiftPoint 0) = a :: rest := by
    cases hmap : (generateSCurve 20 4 (-10)).map (shiftPoint 0) with
    | nil =>
      exfalso
      have h := congrArg List.length hmap
      simp [generateSCurve] at h
    | cons a rest => exact ⟨a, rest, rfl⟩
  obtain ⟨L, hL, _⟩ := offsetCurve_eq_some _ 0
    ((generateHypeCycle 20 4 (-10)).map CurvePoint.time) a rest hm
  refine ⟨⟨generateHypeCycle 20 4 (-10), L,
      blendCurves (generateHypeCycle 20 4 (-10)) L (1 / 2)⟩, ?_,
    hypeTimes_concrete, hypeValues_first_two, blendCurves_half _ L⟩
  simp only [generateCombinedCurve]
  rw [hL]
  rfl

end TechCurves
